import Mathlib

/-!
Shallow embedding of the Connect-Four gym environment (`connect4Env.py`)
and proofs of its specified properties.

The board is a `rows × cols` grid, row 0 on top, stored as a list of rows;
cells hold 0 (empty), +1 (player one) or −1 (player two).  Rewards are the
integral floats −10.0, 0.0, 1.0 of the source, modeled as integers.
-/

namespace Connect4

/-- Environment state: dimensions, win length, board contents and the
player to move (`self.rows`, `self.cols`, `self.win_length`, `self.board`,
`self.current_player`). -/
structure Connect4Env where
  rows : Nat
  cols : Nat
  win_length : Nat
  board : List (List Int)
  current_player : Int
deriving DecidableEq, Repr

/-- Cell read `board[r, c]`; 0 (empty) outside the stored grid. -/
def getCell (b : List (List Int)) (r c : Nat) : Int :=
  (b.getD r []).getD c 0

/-- Cell write `board[r, c] = v`; a no-op outside the stored grid. -/
def setCell (b : List (List Int)) (r c : Nat) (v : Int) : List (List Int) :=
  b.set r ((b.getD r []).set c v)

/-- An all-zero `rows × cols` grid (`np.zeros`). -/
def mkBoard (rows cols : Nat) : List (List Int) :=
  List.replicate rows (List.replicate cols 0)

/-- `Connect4Env.__init__(rows, cols, win_length)`. -/
def initEnv (rows cols win_length : Nat) : Connect4Env :=
  { rows := rows, cols := cols, win_length := win_length,
    board := mkBoard rows cols, current_player := 1 }

/-- `_get_observation`: the board scaled elementwise by the current player. -/
def get_observation (e : Connect4Env) : List (List Int) :=
  e.board.map (fun row => row.map (fun v => v * e.current_player))

/-- `reset`: clear the board, set the current player to +1; returns the new
state together with the returned observation. -/
def reset (e : Connect4Env) : Connect4Env × List (List Int) :=
  let e2 : Connect4Env :=
    { e with board := mkBoard e.rows e.cols, current_player := 1 }
  (e2, get_observation e2)

/-- `get_valid_actions`: the columns whose top cell is empty, ascending. -/
def get_valid_actions (e : Connect4Env) : List Nat :=
  (List.range e.cols).filter (fun col => getCell e.board 0 col == 0)

/-- `_is_valid_action`: `col` is in range and its top cell is empty. -/
def is_valid_action (e : Connect4Env) (col : Int) : Bool :=
  if 0 ≤ col ∧ col < (e.cols : Int) then getCell e.board 0 col.toNat == 0
  else false

/-- The row scan of `_place_piece`: from the bottom row (`rows − 1`) upward,
the first row whose cell in `col` is empty. -/
def findPlaceRow (b : List (List Int)) (col : Nat) : Nat → Option Nat
  | 0 => none
  | Nat.succ k => if getCell b k col = 0 then some k else findPlaceRow b col k

/-- `_place_piece`: drop a piece for `player` into `col`; returns the row
used (`none` when the column is full) and the updated state. -/
def place_piece (e : Connect4Env) (col : Nat) (player : Int) :
    Option Nat × Connect4Env :=
  match findPlaceRow e.board col e.rows with
  | some r => (some r, { e with board := setCell e.board r col player })
  | none => (none, e)

/-- The probe `0 <= r < self.rows and 0 <= c < self.cols and
self.board[r, c] == player` of `_check_win_from_move`. -/
def matchCell (e : Connect4Env) (r c player : Int) : Prop :=
  0 ≤ r ∧ r < (e.rows : Int) ∧ 0 ≤ c ∧ c < (e.cols : Int) ∧
    getCell e.board r.toNat c.toNat = player

instance (e : Connect4Env) (r c player : Int) :
    Decidable (matchCell e r c player) := by
  unfold matchCell; infer_instance

/-- One arm of the scan loop in `_check_win_from_move`: starting at offset
`i` from `(row, col)` along `(dr, dc)`, count consecutive in-bounds cells
holding `player`, probing at most `fuel` further offsets. -/
def countFrom (e : Connect4Env) (row col dr dc player i : Int) : Nat → Nat
  | 0 => 0
  | Nat.succ fuel =>
    if matchCell e (row + i * dr) (col + i * dc) player then
      1 + countFrom e row col dr dc player (i + 1) fuel
    else 0

/-- The four scan directions of `_check_win_from_move`. -/
def directions : List (Int × Int) := [(0, 1), (1, 0), (1, 1), (1, -1)]

/-- `_check_win_from_move`: the move at `(row, col)` by `player` wins. -/
def check_win_from_move (e : Connect4Env) (row : Option Int)
    (col player : Int) : Bool :=
  match row with
  | none => false
  | some row =>
    directions.any (fun d =>
      let count := 1 + countFrom e row col d.1 d.2 player 1 (e.win_length - 1)
        + countFrom e row col (-d.1) (-d.2) player 1 (e.win_length - 1)
      decide (e.win_length ≤ count))

/-- `_is_draw`: every cell of the top row is occupied. -/
def is_draw (e : Connect4Env) : Bool :=
  (List.range e.cols).all (fun c => getCell e.board 0 c != 0)

/-- The `(observation, reward, done, info)` tuple returned by `step`. -/
structure StepResult where
  obs : List (List Int)
  reward : Int
  done : Bool
  info : Option String
deriving DecidableEq, Repr

/-- `step`: play `action_col` for the current player; returns the updated
state and the `(observation, reward, done, info)` tuple. -/
def step (e : Connect4Env) (action_col : Int) : Connect4Env × StepResult :=
  if !(is_valid_action e action_col) then
    (e, { obs := get_observation e, reward := -10, done := true,
          info := some ("Invalid move by player " ++
            toString e.current_player) })
  else
    let player_who_moved := e.current_player
    let pr := place_piece e action_col.toNat player_who_moved
    match pr.1 with
    | none =>
      (pr.2, { obs := get_observation pr.2, reward := -10, done := true,
               info := some ("Failed to place piece by player " ++
                 toString pr.2.current_player) })
    | some row =>
      if check_win_from_move pr.2 (some (row : Int)) action_col
          player_who_moved then
        (pr.2, { obs := get_observation pr.2, reward := 1, done := true,
                 info := none })
      else if is_draw pr.2 then
        (pr.2, { obs := get_observation pr.2, reward := 0, done := true,
                 info := none })
      else
        let e2 := { pr.2 with current_player := pr.2.current_player * -1 }
        (e2, { obs := get_observation e2, reward := 0, done := false,
               info := none })

/-- Fold a list of actions through `step`, keeping only the state. -/
def runSteps (e : Connect4Env) (moves : List Int) : Connect4Env :=
  moves.foldl (fun s m => (step s m).1) e

/-- The stored board matches the declared dimensions. -/
def WF (e : Connect4Env) : Prop :=
  e.board.length = e.rows ∧ ∀ row ∈ e.board, row.length = e.cols

/-- Every board cell is −1, 0 or +1. -/
def cellsOK (e : Connect4Env) : Prop :=
  ∀ r c, getCell e.board r c = -1 ∨ getCell e.board r c = 0 ∨
    getCell e.board r c = 1

/-- The player to move is +1 or −1. -/
def playerOK (e : Connect4Env) : Prop :=
  e.current_player = 1 ∨ e.current_player = -1

/-- Gravity: in every column, every cell below an occupied cell is
occupied. -/
def gravityOK (e : Connect4Env) : Prop :=
  ∀ c r r', r ≤ r' → r' < e.rows →
    getCell e.board r c ≠ 0 → getCell e.board r' c ≠ 0

/-- States reachable from a `reset` by any sequence of `step` calls. -/
inductive Reachable : Connect4Env → Prop
  | reset (e : Connect4Env) : Reachable (Connect4.reset e).1
  | step (e : Connect4Env) (col : Int) :
      Reachable e → Reachable (Connect4.step e col).1

/-- Offsets 1..k from `(row, col)` along `(dr, dc)` all hold `player`. -/
def runMatches (e : Connect4Env) (row col dr dc player : Int) (k : Nat) :
    Prop :=
  ∀ i : Nat, 1 ≤ i → i ≤ k →
    matchCell e (row + (i : Int) * dr) (col + (i : Int) * dc) player

/-- The spec's win condition at `(row, col)`: along some axis, a run of
matches on each side of the placed cell, each reached within
`win_length − 1` offsets, totals at least `win_length` cells including the
placed cell itself. -/
def winAtSpec (e : Connect4Env) (row col player : Int) : Prop :=
  ∃ d ∈ directions, ∃ a b : Nat,
    a ≤ e.win_length - 1 ∧ b ≤ e.win_length - 1 ∧
    runMatches e row col d.1 d.2 player a ∧
    runMatches e row col (-d.1) (-d.2) player b ∧
    e.win_length ≤ 1 + a + b

/-- The state after `_place_piece` writes `current_player` at `(r, col)`. -/
def placedEnv (e : Connect4Env) (col r : Nat) : Connect4Env :=
  { e with board := setCell e.board r col e.current_player }

/-! ### List-level helper lemmas -/

theorem getD_set {α : Type} (l : List α) (i j : Nat) (v d : α) :
    (l.set i v).getD j d = if j = i ∧ i < l.length then v else l.getD j d := by
  induction l generalizing i j with
  | nil => simp
  | cons a tl ih =>
    cases i with
    | zero =>
      cases j with
      | zero => simp
      | succ j => simp
    | succ i =>
      cases j with
      | zero => simp
      | succ j =>
        rw [List.set_cons_succ, List.getD_cons_succ, List.getD_cons_succ, ih]
        by_cases h : j = i ∧ i < tl.length
        · rw [if_pos h, if_pos (by simp; omega)]
        · rw [if_neg h, if_neg (by simp; omega)]

theorem getD_replicate {α : Type} (n : Nat) (x d : α) (i : Nat) :
    (List.replicate n x).getD i d = if i < n then x else d := by
  rw [List.getD_eq_getElem?_getD, List.getElem?_replicate]
  split <;> simp

/-- Cells of the zero board are all 0. -/
theorem getCell_mkBoard (rows cols r c : Nat) :
    getCell (mkBoard rows cols) r c = 0 := by
  unfold getCell mkBoard
  rw [getD_replicate]
  split
  · rw [getD_replicate]; split <;> rfl
  · rfl

/-- Reading after a cell write. -/
theorem getCell_setCell (b : List (List Int)) (r c : Nat) (v : Int)
    (r' c' : Nat) :
    getCell (setCell b r c v) r' c' =
      if r' = r ∧ c' = c ∧ r < b.length ∧ c < (b.getD r []).length then v
      else getCell b r' c' := by
  unfold getCell setCell
  rw [getD_set]
  by_cases hr : r' = r ∧ r < b.length
  · obtain ⟨h1, h2⟩ := hr
    subst h1
    rw [if_pos ⟨rfl, h2⟩, getD_set]
    by_cases hc : c' = c ∧ c < (b.getD r' []).length
    · obtain ⟨h3, h4⟩ := hc
      subst h3
      rw [if_pos ⟨rfl, h4⟩, if_pos ⟨rfl, rfl, h2, h4⟩]
    · rw [if_neg hc, if_neg (by tauto)]
  · rw [if_neg hr, if_neg (by tauto)]

/-- The written cell, when the write lands inside the stored grid. -/
theorem getCell_setCell_self (b : List (List Int)) (r c : Nat) (v : Int)
    (hr : r < b.length) (hc : c < (b.getD r []).length) :
    getCell (setCell b r c v) r c = v := by
  rw [getCell_setCell, if_pos ⟨rfl, rfl, hr, hc⟩]

/-- Any cell after a write is the written value or the old value. -/
theorem getCell_setCell_cases (b : List (List Int)) (r c : Nat) (v : Int)
    (r' c' : Nat) :
    getCell (setCell b r c v) r' c' = v ∨
      getCell (setCell b r c v) r' c' = getCell b r' c' := by
  rw [getCell_setCell]; split
  · exact Or.inl rfl
  · exact Or.inr rfl

/-- A cell away from the write position is unchanged. -/
theorem getCell_setCell_ne (b : List (List Int)) (r c : Nat) (v : Int)
    (r' c' : Nat) (h : ¬(r' = r ∧ c' = c)) :
    getCell (setCell b r c v) r' c' = getCell b r' c' := by
  rw [getCell_setCell, if_neg (by tauto)]

theorem getD_map_mul (l : List Int) (p : Int) (c : Nat) :
    (l.map (fun v => v * p)).getD c 0 = l.getD c 0 * p := by
  induction l generalizing c with
  | nil => simp
  | cons a tl ih =>
    cases c with
    | zero => simp
    | succ c => simpa using ih c

theorem getCell_map_mul (b : List (List Int)) (p : Int) (r c : Nat) :
    getCell (b.map (fun row => row.map (fun v => v * p))) r c =
      getCell b r c * p := by
  induction b generalizing r with
  | nil => simp [getCell]
  | cons row tl ih =>
    cases r with
    | zero => exact getD_map_mul row p c
    | succ r => exact ih r

/-- Pointwise description of `_get_observation`. -/
theorem getCell_observation (e : Connect4Env) (r c : Nat) :
    getCell (get_observation e) r c = getCell e.board r c * e.current_player :=
  getCell_map_mul e.board e.current_player r c

/-! ### Characterizing the placement scan and move validity -/

/-- When the bottom-up scan returns row `k`: `k` is in range, its cell is
empty, and every row strictly below `k` is occupied. -/
theorem findPlaceRow_some_spec (b : List (List Int)) (col : Nat) :
    ∀ n k, findPlaceRow b col n = some k →
      k < n ∧ getCell b k col = 0 ∧
        ∀ j, k < j → j < n → getCell b j col ≠ 0 := by
  intro n
  induction n with
  | zero => intro k h; simp [findPlaceRow] at h
  | succ m ih =>
    intro k h
    unfold findPlaceRow at h
    by_cases hc : getCell b m col = 0
    · rw [if_pos hc] at h
      injection h with h
      subst h
      refine ⟨Nat.lt_succ_self _, hc, ?_⟩
      intro j hj1 hj2
      exact absurd hj1 (by omega)
    · rw [if_neg hc] at h
      obtain ⟨h1, h2, h3⟩ := ih k h
      refine ⟨by omega, h2, ?_⟩
      intro j hj1 hj2
      rcases Nat.lt_succ_iff_lt_or_eq.mp hj2 with h4 | h4
      · exact h3 j hj1 h4
      · rw [h4]; exact hc

/-- When the scan fails, every row of the column is occupied. -/
theorem findPlaceRow_none_spec (b : List (List Int)) (col : Nat) :
    ∀ n, findPlaceRow b col n = none → ∀ j, j < n → getCell b j col ≠ 0 := by
  intro n
  induction n with
  | zero => intro _ j hj; exact absurd hj (by omega)
  | succ m ih =>
    intro h j hj
    unfold findPlaceRow at h
    by_cases hc : getCell b m col = 0
    · rw [if_pos hc] at h; cases h
    · rw [if_neg hc] at h
      rcases Nat.lt_succ_iff_lt_or_eq.mp hj with h4 | h4
      · exact ih h j h4
      · rw [h4]; exact hc

/-- An empty top cell guarantees the scan finds a row. -/
theorem findPlaceRow_isSome (b : List (List Int)) (col n : Nat)
    (h0 : getCell b 0 col = 0) (hn : 0 < n) :
    ∃ k, findPlaceRow b col n = some k := by
  cases hfp : findPlaceRow b col n with
  | some k => exact ⟨k, rfl⟩
  | none => exact absurd h0 (findPlaceRow_none_spec b col n hfp 0 hn)

/-- `_is_valid_action` holds exactly when the column is in range and its
top cell is empty. -/
theorem is_valid_action_iff (e : Connect4Env) (col : Int) :
    is_valid_action e col = true ↔
      0 ≤ col ∧ col < (e.cols : Int) ∧ getCell e.board 0 col.toNat = 0 := by
  unfold is_valid_action
  by_cases h : 0 ≤ col ∧ col < (e.cols : Int)
  · rw [if_pos h]
    simp [beq_iff_eq, h.1, h.2]
  · rw [if_neg h]
    simp only [Bool.false_eq_true, false_iff]
    tauto

/-! ### Unfolding `step` branch by branch -/

/-- The state after a continuing move: piece written, player flipped. -/
def flippedEnv (e : Connect4Env) (col r : Nat) : Connect4Env :=
  { e with
    board := setCell e.board r col e.current_player
    current_player := e.current_player * -1 }

theorem place_piece_eq_some (e : Connect4Env) (col r : Nat)
    (hp : findPlaceRow e.board col e.rows = some r) :
    place_piece e col e.current_player = (some r, placedEnv e col r) := by
  simp [place_piece, placedEnv, hp]

/-- `step` on an illegal action: state unchanged, reward −10, done. -/
theorem step_invalid_eq (e : Connect4Env) (col : Int)
    (h : is_valid_action e col = false) :
    step e col = (e, ⟨get_observation e, -10, true,
      some ("Invalid move by player " ++ toString e.current_player)⟩) := by
  unfold step
  rw [h]
  rfl

/-- `step` on a winning move. -/
theorem step_win_eq (e : Connect4Env) (col : Int) (r : Nat)
    (hv : is_valid_action e col = true)
    (hp : findPlaceRow e.board col.toNat e.rows = some r)
    (hw : check_win_from_move (placedEnv e col.toNat r) (some (r : Int)) col
      e.current_player = true) :
    step e col = (placedEnv e col.toNat r,
      ⟨get_observation (placedEnv e col.toNat r), 1, true, none⟩) := by
  unfold step
  rw [hv]
  simp only [Bool.not_true, Bool.false_eq_true, if_false,
    place_piece_eq_some e col.toNat r hp, hw, if_true]

/-- `step` on a drawing move. -/
theorem step_draw_eq (e : Connect4Env) (col : Int) (r : Nat)
    (hv : is_valid_action e col = true)
    (hp : findPlaceRow e.board col.toNat e.rows = some r)
    (hw : check_win_from_move (placedEnv e col.toNat r) (some (r : Int)) col
      e.current_player = false)
    (hd : is_draw (placedEnv e col.toNat r) = true) :
    step e col = (placedEnv e col.toNat r,
      ⟨get_observation (placedEnv e col.toNat r), 0, true, none⟩) := by
  unfold step
  rw [hv]
  simp only [Bool.not_true, Bool.false_eq_true, if_false,
    place_piece_eq_some e col.toNat r hp, hw, hd, if_true]

/-- `step` on a continuing move. -/
theorem step_cont_eq (e : Connect4Env) (col : Int) (r : Nat)
    (hv : is_valid_action e col = true)
    (hp : findPlaceRow e.board col.toNat e.rows = some r)
    (hw : check_win_from_move (placedEnv e col.toNat r) (some (r : Int)) col
      e.current_player = false)
    (hd : is_draw (placedEnv e col.toNat r) = false) :
    step e col = (flippedEnv e col.toNat r,
      ⟨get_observation (flippedEnv e col.toNat r), 0, false, none⟩) := by
  unfold step
  rw [hv]
  simp only [Bool.not_true, Bool.false_eq_true, if_false,
    place_piece_eq_some e col.toNat r hp, hw, hd]
  rfl

/-! ### The scan loop versus the spec's run condition -/

theorem countFrom_le (e : Connect4Env) (row col dr dc player : Int) :
    ∀ (fuel : Nat) (i : Int), countFrom e row col dr dc player i fuel ≤ fuel := by
  intro fuel
  induction fuel with
  | zero => intro i; simp [countFrom]
  | succ m ih =>
    intro i
    unfold countFrom
    split
    · have := ih (i + 1); omega
    · omega

/-- Every offset the scan counted does match. -/
theorem countFrom_sound (e : Connect4Env) (row col dr dc player : Int) :
    ∀ (fuel : Nat) (i : Int) (j : Nat),
      j < countFrom e row col dr dc player i fuel →
      matchCell e (row + (i + j) * dr) (col + (i + j) * dc) player := by
  intro fuel
  induction fuel with
  | zero => intro i j h; simp [countFrom] at h
  | succ m ih =>
    intro i j h
    unfold countFrom at h
    split at h
    · rename_i hcond
      cases j with
      | zero => simpa using hcond
      | succ j =>
        have h2 := ih (i + 1) j (by omega)
        have hidx : i + ((j : Nat) + 1 : Nat) = i + 1 + (j : Nat) := by
          push_cast; ring
        rw [hidx]
        exact h2
    · omega

/-- If the first `a ≤ fuel` offsets all match, the scan counts at least
`a`. -/
theorem countFrom_complete (e : Connect4Env) (row col dr dc player : Int) :
    ∀ (fuel : Nat) (i : Int) (a : Nat), a ≤ fuel →
      (∀ j : Nat, j < a →
        matchCell e (row + (i + j) * dr) (col + (i + j) * dc) player) →
      a ≤ countFrom e row col dr dc player i fuel := by
  intro fuel
  induction fuel with
  | zero => intro i a ha _; simpa [countFrom] using ha
  | succ m ih =>
    intro i a ha hall
    unfold countFrom
    cases a with
    | zero => omega
    | succ a =>
      have h0 : matchCell e (row + i * dr) (col + i * dc) player := by
        simpa using hall 0 (by omega)
      rw [if_pos h0]
      have hrec : a ≤ countFrom e row col dr dc player (i + 1) m := by
        refine ih (i + 1) a (by omega) ?_
        intro j hj
        have := hall (j + 1) (by omega)
        have hidx : i + ((j : Nat) + 1 : Nat) = i + 1 + (j : Nat) := by
          push_cast; ring
        rw [hidx] at this
        exact this
      omega

/-- The forward arm of the scan, read as a run of matching offsets. -/
theorem countFrom_runMatches (e : Connect4Env) (row col dr dc player : Int)
    (fuel : Nat) :
    runMatches e row col dr dc player
      (countFrom e row col dr dc player 1 fuel) := by
  intro i h1 h2
  have h3 := countFrom_sound e row col dr dc player fuel 1 (i - 1) (by omega)
  have hidx : (1 : Int) + ((i - 1 : Nat) : Nat) = (i : Nat) := by omega
  rw [hidx] at h3
  exact h3

/-- A run of `a` matching offsets forces the scan to count at least `a`. -/
theorem runMatches_le_countFrom (e : Connect4Env)
    (row col dr dc player : Int) (fuel a : Nat) (ha : a ≤ fuel)
    (hr : runMatches e row col dr dc player a) :
    a ≤ countFrom e row col dr dc player 1 fuel := by
  refine countFrom_complete e row col dr dc player fuel 1 a ha ?_
  intro j hj
  have h3 := hr (j + 1) (by omega) (by omega)
  have hidx : ((j + 1 : Nat) : Int) = 1 + (j : Nat) := by omega
  rw [hidx] at h3
  exact h3

/-- `_check_win_from_move` agrees with the spec's four-axis run
condition. -/
theorem check_win_iff (e : Connect4Env) (row : Nat) (col player : Int) :
    check_win_from_move e (some (row : Int)) col player = true ↔
      winAtSpec e (row : Int) col player := by
  unfold check_win_from_move winAtSpec
  simp only [List.any_eq_true, decide_eq_true_eq]
  constructor
  · rintro ⟨d, hd, hcnt⟩
    refine ⟨d, hd,
      countFrom e (row : Int) col d.1 d.2 player 1 (e.win_length - 1),
      countFrom e (row : Int) col (-d.1) (-d.2) player 1 (e.win_length - 1),
      countFrom_le _ _ _ _ _ _ _ _, countFrom_le _ _ _ _ _ _ _ _,
      countFrom_runMatches _ _ _ _ _ _ _,
      countFrom_runMatches _ _ _ _ _ _ _, ?_⟩
    omega
  · rintro ⟨d, hd, a, b, ha, hb, hra, hrb, hsum⟩
    refine ⟨d, hd, ?_⟩
    have h1 := runMatches_le_countFrom e (row : Int) col d.1 d.2 player
      (e.win_length - 1) a ha hra
    have h2 := runMatches_le_countFrom e (row : Int) col (-d.1) (-d.2) player
      (e.win_length - 1) b hb hrb
    omega

/-- Row lengths under well-formedness. -/
theorem WF_row_length (e : Connect4Env) (hWF : WF e) (r : Nat)
    (hr : r < e.rows) : (e.board.getD r []).length = e.cols := by
  obtain ⟨hlen, hrow⟩ := hWF
  have hlt : r < e.board.length := by omega
  rw [List.getD_eq_getElem?_getD, List.getElem?_eq_getElem hlt]
  exact hrow _ (List.getElem_mem hlt)

/-- The default freshly reset 6×7 environment. -/
def e0 : Connect4Env := (reset (initEnv 6 7 4)).1

/-! ### The claims -/

/-- C1: for every in-range column whose topmost cell is empty, `step`
places the piece at some row `r`, the win check declares a win iff one of
the four axes through the placed cell carries at least `win_length`
consecutive cells of the mover (counting the placed cell, walking at most
`win_length − 1` offsets per side until mismatch or boundary), and on a
win `step` returns reward +1, `done = true`, with the current player
unchanged. -/
theorem C1_win_check_correct (e : Connect4Env) (col : Int)
    (hr : 0 < e.rows) (hv : is_valid_action e col = true) :
    ∃ r : Nat, (place_piece e col.toNat e.current_player).1 = some r ∧
      (check_win_from_move (placedEnv e col.toNat r) (some (r : Int)) col
          e.current_player = true ↔
        winAtSpec (placedEnv e col.toNat r) (r : Int) col e.current_player) ∧
      (check_win_from_move (placedEnv e col.toNat r) (some (r : Int)) col
          e.current_player = true →
        (step e col).2.reward = 1 ∧ (step e col).2.done = true ∧
          (step e col).1.current_player = e.current_player) := by
  obtain ⟨h1, h2, htop⟩ := (is_valid_action_iff e col).mp hv
  obtain ⟨r, hp⟩ := findPlaceRow_isSome e.board col.toNat e.rows htop hr
  refine ⟨r, ?_, check_win_iff (placedEnv e col.toNat r) r col
    e.current_player, ?_⟩
  · rw [place_piece_eq_some e col.toNat r hp]
  · intro hw
    rw [step_win_eq e col r hv hp hw]
    exact ⟨rfl, rfl, rfl⟩

theorem C1_win_check_correct_witness :
    (step (runSteps e0 [0, 1, 0, 1, 0, 1]) 0).2.reward = 1 ∧
      (step (runSteps e0 [0, 1, 0, 1, 0, 1]) 0).2.done = true ∧
      (step (runSteps e0 [0, 1, 0, 1, 0, 1]) 0).1.current_player =
        (runSteps e0 [0, 1, 0, 1, 0, 1]).current_player := by
  obtain ⟨r, hp, hiff, hwin⟩ :=
    C1_win_check_correct (runSteps e0 [0, 1, 0, 1, 0, 1]) 0 (by decide)
      (by decide)
  have h2 : some 2 = some r :=
    (by decide : (place_piece (runSteps e0 [0, 1, 0, 1, 0, 1])
      ((0 : Int)).toNat (runSteps e0 [0, 1, 0, 1, 0, 1]).current_player).1 =
        some 2).symm.trans hp
  injection h2 with h2
  subst h2
  exact hwin (by decide)

/-- C2: for every column that is out of range or whose topmost cell is
occupied, `step` ends the episode with reward −10, leaves the whole state
unchanged, returns the observation from the unchanged current player's
perspective, and an info diagnostic naming the offending player. -/
theorem C2_illegal_move_rejected (e : Connect4Env) (col : Int)
    (h : col < 0 ∨ (e.cols : Int) ≤ col ∨ getCell e.board 0 col.toNat ≠ 0) :
    step e col = (e, ⟨get_observation e, -10, true,
      some ("Invalid move by player " ++ toString e.current_player)⟩) := by
  have hval : is_valid_action e col = false := by
    cases hb : is_valid_action e col
    · rfl
    · obtain ⟨h1, h2, h3⟩ := (is_valid_action_iff e col).mp hb
      rcases h with h | h | h
      · omega
      · omega
      · exact absurd h3 h
  exact step_invalid_eq e col hval

theorem C2_illegal_move_rejected_witness :
    step e0 7 = (e0, ⟨get_observation e0, -10, true,
      some ("Invalid move by player " ++ toString e0.current_player)⟩) :=
  C2_illegal_move_rejected e0 7 (by decide)

/-- C4: a legal step drops the mover's piece into the lowest empty cell of
the column: the chosen row is empty, every row below it in that column is
occupied, the piece lands there, and no other cell of the column moves. -/
theorem C4_gravity_placement (e : Connect4Env) (col : Int)
    (hr : 0 < e.rows) (hWF : WF e) (hv : is_valid_action e col = true) :
    ∃ r : Nat, (place_piece e col.toNat e.current_player).1 = some r ∧
      getCell e.board r col.toNat = 0 ∧
      (∀ j, r < j → j < e.rows → getCell e.board j col.toNat ≠ 0) ∧
      getCell (place_piece e col.toNat e.current_player).2.board r col.toNat
        = e.current_player ∧
      (∀ j, j ≠ r →
        getCell (place_piece e col.toNat e.current_player).2.board j col.toNat
          = getCell e.board j col.toNat) := by
  obtain ⟨h1, h2, htop⟩ := (is_valid_action_iff e col).mp hv
  obtain ⟨r, hp⟩ := findPlaceRow_isSome e.board col.toNat e.rows htop hr
  obtain ⟨hrlt, hempty, hbelow⟩ := findPlaceRow_some_spec e.board col.toNat
    e.rows r hp
  rw [place_piece_eq_some e col.toNat r hp]
  refine ⟨r, rfl, hempty, hbelow, ?_, ?_⟩
  · show getCell (setCell e.board r col.toNat e.current_player) r col.toNat
      = e.current_player
    refine getCell_setCell_self e.board r col.toNat e.current_player ?_ ?_
    · have := hWF.1
      omega
    · rw [WF_row_length e hWF r hrlt]
      omega
  · intro j hj
    exact getCell_setCell_ne e.board r col.toNat e.current_player j col.toNat
      (by tauto)

theorem C4_gravity_placement_witness :
    getCell (place_piece e0 ((3 : Int)).toNat e0.current_player).2.board 5 3
        = e0.current_player ∧
      getCell (place_piece e0 ((3 : Int)).toNat e0.current_player).2.board 0 3
        = getCell e0.board 0 3 := by
  obtain ⟨r, hp, hempty, hbelow, hset, hframe⟩ :=
    C4_gravity_placement e0 3 (by decide) ⟨by decide, by decide⟩ (by decide)
  have h5 : some 5 = some r :=
    (by decide : (place_piece e0 ((3 : Int)).toNat e0.current_player).1 =
      some 5).symm.trans hp
  injection h5 with h5
  subst h5
  exact ⟨hset, hframe 0 (by decide)⟩

/-- C5: a legal step that wins nothing but fills the top row is a draw:
reward 0, `done = true`, and the current player is not flipped. -/
theorem C5_draw_detected (e : Connect4Env) (col : Int) (r : Nat)
    (hv : is_valid_action e col = true)
    (hp : findPlaceRow e.board col.toNat e.rows = some r)
    (hw : check_win_from_move (placedEnv e col.toNat r) (some (r : Int)) col
      e.current_player = false)
    (hd : is_draw (placedEnv e col.toNat r) = true) :
    (step e col).2.reward = 0 ∧ (step e col).2.done = true ∧
      (step e col).1.current_player = e.current_player := by
  rw [step_draw_eq e col r hv hp hw hd]
  exact ⟨rfl, rfl, rfl⟩

theorem C5_draw_detected_witness :
    (step (initEnv 1 1 4) 0).2.reward = 0 ∧
      (step (initEnv 1 1 4) 0).2.done = true ∧
      (step (initEnv 1 1 4) 0).1.current_player =
        (initEnv 1 1 4).current_player :=
  C5_draw_detected (initEnv 1 1 4) 0 0 (by decide) (by decide) (by decide)
    (by decide)

/-- C6: a legal step that neither wins nor draws flips the sign of the
current player exactly once and returns reward 0 with `done = false`; a
second such step restores the original player, so the sign strictly
alternates. -/
theorem C6_turn_alternation (e : Connect4Env) (col : Int) (r : Nat)
    (hv : is_valid_action e col = true)
    (hp : findPlaceRow e.board col.toNat e.rows = some r)
    (hw : check_win_from_move (placedEnv e col.toNat r) (some (r : Int)) col
      e.current_player = false)
    (hd : is_draw (placedEnv e col.toNat r) = false) :
    ((step e col).1.current_player = -e.current_player ∧
      (step e col).2.reward = 0 ∧ (step e col).2.done = false) ∧
    ∀ (col2 : Int) (r2 : Nat),
      is_valid_action (step e col).1 col2 = true →
      findPlaceRow (step e col).1.board col2.toNat (step e col).1.rows =
        some r2 →
      check_win_from_move (placedEnv (step e col).1 col2.toNat r2)
        (some (r2 : Int)) col2 (step e col).1.current_player = false →
      is_draw (placedEnv (step e col).1 col2.toNat r2) = false →
      (step (step e col).1 col2).1.current_player = e.current_player := by
  have hmain : (step e col).1.current_player = -e.current_player := by
    rw [step_cont_eq e col r hv hp hw hd]
    show e.current_player * -1 = -e.current_player
    ring
  constructor
  · refine ⟨hmain, ?_, ?_⟩
    · rw [step_cont_eq e col r hv hp hw hd]
    · rw [step_cont_eq e col r hv hp hw hd]
  · intro col2 r2 hv2 hp2 hw2 hd2
    have h2 : (step (step e col).1 col2).1.current_player =
        -(step e col).1.current_player := by
      rw [step_cont_eq (step e col).1 col2 r2 hv2 hp2 hw2 hd2]
      show (step e col).1.current_player * -1 = -(step e col).1.current_player
      ring
    rw [h2, hmain, neg_neg]

/-- `step` when the scan finds no row (only possible with `rows = 0`,
since validity already checked the top cell): state unchanged. -/
theorem step_fail_eq (e : Connect4Env) (col : Int)
    (hv : is_valid_action e col = true)
    (hp : findPlaceRow e.board col.toNat e.rows = none) :
    step e col = (e, ⟨get_observation e, -10, true,
      some ("Failed to place piece by player " ++
        toString e.current_player)⟩) := by
  unfold step
  rw [hv]
  simp only [Bool.not_true, Bool.false_eq_true, if_false, place_piece, hp]

/-- On any legal move that places at row `r`, the post-step board is the
old board with the mover's piece written at `(r, col)`. -/
theorem step_board_of_some (e : Connect4Env) (col : Int) (r : Nat)
    (hv : is_valid_action e col = true)
    (hp : findPlaceRow e.board col.toNat e.rows = some r) :
    (step e col).1.board = setCell e.board r col.toNat e.current_player := by
  cases hw : check_win_from_move (placedEnv e col.toNat r) (some (r : Int))
      col e.current_player with
  | true => rw [step_win_eq e col r hv hp hw]; rfl
  | false =>
    cases hd : is_draw (placedEnv e col.toNat r) with
    | true => rw [step_draw_eq e col r hv hp hw hd]; rfl
    | false => rw [step_cont_eq e col r hv hp hw hd]; rfl

/-- Every `step` either leaves the state untouched or writes exactly one
piece, possibly flipping the player; dimensions never change. -/
theorem step_state_cases (e : Connect4Env) (col : Int) :
    (step e col).1 = e ∨
      ∃ r, findPlaceRow e.board col.toNat e.rows = some r ∧
        is_valid_action e col = true ∧
        (step e col).1.rows = e.rows ∧
        (step e col).1.board = setCell e.board r col.toNat e.current_player ∧
        ((step e col).1.current_player = e.current_player ∨
          (step e col).1.current_player = e.current_player * -1) := by
  cases hv : is_valid_action e col with
  | false => rw [step_invalid_eq e col hv]; exact Or.inl rfl
  | true =>
    cases hfp : findPlaceRow e.board col.toNat e.rows with
    | none => rw [step_fail_eq e col hv hfp]; exact Or.inl rfl
    | some r =>
      refine Or.inr ⟨r, rfl, rfl, ?_⟩
      have hb := step_board_of_some e col r hv hfp
      cases hw : check_win_from_move (placedEnv e col.toNat r)
          (some (r : Int)) col e.current_player with
      | true => rw [step_win_eq e col r hv hfp hw]; exact ⟨rfl, rfl, Or.inl rfl⟩
      | false =>
        cases hd : is_draw (placedEnv e col.toNat r) with
        | true =>
          rw [step_draw_eq e col r hv hfp hw hd]
          exact ⟨rfl, rfl, Or.inl rfl⟩
        | false =>
          rw [step_cont_eq e col r hv hfp hw hd]
          exact ⟨rfl, rfl, Or.inr rfl⟩

/-- C3 counterexample: a `step` call whose return said `done = true` (a
finished win) is followed by another `step` on a playable column, and that
later call mutates the board — no reset happened in between. -/
theorem C3_counterexample_step_after_done_mutates :
    (step (runSteps e0 [0, 1, 0, 1, 0, 1]) 0).2.done = true ∧
      (step (step (runSteps e0 [0, 1, 0, 1, 0, 1]) 0).1 1).1.board ≠
        (step (runSteps e0 [0, 1, 0, 1, 0, 1]) 0).1.board := by
  exact ⟨by decide, by decide⟩

/-- C3 (amended): the engine stores no terminal flag, so a terminal return
does not freeze the state.  From any state — in particular one a terminal
`step` just returned — a further `step` on an in-range column with an
empty top cell mutates the board; only illegal calls leave it unchanged. -/
theorem C3_amended_no_terminal_guard (e : Connect4Env) (col : Int)
    (hr : 0 < e.rows) (hWF : WF e) (hpl : playerOK e)
    (hv : is_valid_action e col = true) :
    (step e col).1.board ≠ e.board := by
  obtain ⟨h1, h2, htop⟩ := (is_valid_action_iff e col).mp hv
  obtain ⟨r, hp⟩ := findPlaceRow_isSome e.board col.toNat e.rows htop hr
  obtain ⟨hrlt, hempty, hbelow⟩ :=
    findPlaceRow_some_spec e.board col.toNat e.rows r hp
  intro heq
  have hget : getCell (step e col).1.board r col.toNat = e.current_player := by
    rw [step_board_of_some e col r hv hp]
    refine getCell_setCell_self e.board r col.toNat e.current_player ?_ ?_
    · have := hWF.1
      omega
    · rw [WF_row_length e hWF r hrlt]
      omega
  rw [heq, hempty] at hget
  rcases hpl with h | h <;> omega

theorem C3_amended_no_terminal_guard_witness :
    (step e0 0).1.board ≠ e0.board :=
  C3_amended_no_terminal_guard e0 0 (by decide) ⟨by decide, by decide⟩
    (Or.inl rfl) (by decide)

/-- C7: `get_valid_actions` returns exactly the columns whose top cell is
empty, in strictly ascending order, as a function of the board alone; on
the freshly reset default 6×7 board it returns `[0, 1, 2, 3, 4, 5, 6]`. -/
theorem C7_valid_actions_exact :
    (∀ (e : Connect4Env) (c : Nat),
      c ∈ get_valid_actions e ↔ c < e.cols ∧ getCell e.board 0 c = 0) ∧
    (∀ e : Connect4Env,
      List.Pairwise (fun x y => x < y) (get_valid_actions e)) ∧
    (∀ e e' : Connect4Env, e.board = e'.board → e.cols = e'.cols →
      get_valid_actions e = get_valid_actions e') ∧
    get_valid_actions (reset (initEnv 6 7 4)).1 = [0, 1, 2, 3, 4, 5, 6] := by
  refine ⟨?_, ?_, ?_, by decide⟩
  · intro e c
    unfold get_valid_actions
    simp only [List.mem_filter, List.mem_range, beq_iff_eq]
  · intro e
    unfold get_valid_actions
    exact (List.pairwise_lt_range e.cols).filter _
  · intro e e' hb hc
    unfold get_valid_actions
    rw [hb, hc]

theorem C7_valid_actions_exact_witness :
    (3 ∈ get_valid_actions e0 ↔ 3 < e0.cols ∧ getCell e0.board 0 3 = 0) ∧
      get_valid_actions (initEnv 6 7 4) = get_valid_actions e0 ∧
      get_valid_actions (reset (initEnv 6 7 4)).1 =
        [0, 1, 2, 3, 4, 5, 6] := by
  obtain ⟨h1, h2, h3, h4⟩ := C7_valid_actions_exact
  exact ⟨h1 e0 3, h3 (initEnv 6 7 4) e0 rfl rfl, h4⟩

theorem C6_turn_alternation_witness :
    ((step e0 0).1.current_player = -e0.current_player ∧
      (step e0 0).2.reward = 0 ∧ (step e0 0).2.done = false) ∧
      (step (step e0 0).1 1).1.current_player = e0.current_player := by
  obtain ⟨hA, hB⟩ := C6_turn_alternation e0 0 5 (by decide) (by decide)
    (by decide) (by decide)
  exact ⟨hA, hB 1 5 (by decide) (by decide) (by decide) (by decide)⟩

/-- The observation of every `step` branch is the observation of the
returned state. -/
theorem step_obs_eq (e : Connect4Env) (col : Int) :
    (step e col).2.obs = get_observation (step e col).1 := by
  cases hv : is_valid_action e col with
  | false => rw [step_invalid_eq e col hv]
  | true =>
    cases hfp : findPlaceRow e.board col.toNat e.rows with
    | none => rw [step_fail_eq e col hv hfp]
    | some r =>
      cases hw : check_win_from_move (placedEnv e col.toNat r)
          (some (r : Int)) col e.current_player with
      | true => rw [step_win_eq e col r hv hfp hw]
      | false =>
        cases hd : is_draw (placedEnv e col.toNat r) with
        | true => rw [step_draw_eq e col r hv hfp hw hd]
        | false => rw [step_cont_eq e col r hv hfp hw hd]

/-- C8: every observation returned by `reset` and by every branch of
`step` equals, cell by cell, the returned state's board scaled by the
returned current player; and with board cells in {−1, 0, 1} and a ±1
player, every observation entry is −1, 0 or 1. -/
theorem C8_observation_is_scaled_board :
    (∀ (e : Connect4Env) (r c : Nat),
      getCell (reset e).2 r c =
        getCell (reset e).1.board r c * (reset e).1.current_player) ∧
    (∀ (e : Connect4Env) (col : Int) (r c : Nat),
      getCell (step e col).2.obs r c =
        getCell (step e col).1.board r c * (step e col).1.current_player) ∧
    (∀ (e : Connect4Env) (r c : Nat),
      getCell (reset e).2 r c = -1 ∨ getCell (reset e).2 r c = 0 ∨
        getCell (reset e).2 r c = 1) ∧
    (∀ (e : Connect4Env) (col : Int), cellsOK e → playerOK e →
      ∀ r c : Nat, getCell (step e col).2.obs r c = -1 ∨
        getCell (step e col).2.obs r c = 0 ∨
        getCell (step e col).2.obs r c = 1) := by
  have hreset : ∀ (e : Connect4Env) (r c : Nat),
      getCell (reset e).2 r c =
        getCell (reset e).1.board r c * (reset e).1.current_player := by
    intro e r c
    exact getCell_observation (reset e).1 r c
  have hstep : ∀ (e : Connect4Env) (col : Int) (r c : Nat),
      getCell (step e col).2.obs r c =
        getCell (step e col).1.board r c * (step e col).1.current_player := by
    intro e col r c
    rw [step_obs_eq e col]
    exact getCell_observation (step e col).1 r c
  refine ⟨hreset, hstep, ?_, ?_⟩
  · intro e r c
    rw [hreset e r c,
      show getCell (reset e).1.board r c = 0 from
        getCell_mkBoard e.rows e.cols r c, zero_mul]
    right; left; rfl
  · intro e col hc hp r c
    rw [hstep e col r c]
    rcases step_state_cases e col with heq | ⟨r0, hfp, hv, hrows, hboard, hplayer⟩
    · rw [heq]
      rcases hc r c with h4 | h4 | h4 <;> rw [h4] <;>
        rcases hp with h2 | h2 <;> rw [h2] <;> decide
    · rw [hboard]
      rcases getCell_setCell_cases e.board r0 col.toNat e.current_player r c
        with h1 | h1
      · rw [h1]
        rcases hplayer with h3 | h3 <;> rw [h3] <;>
          rcases hp with h2 | h2 <;> rw [h2] <;> decide
      · rw [h1]
        rcases hplayer with h3 | h3 <;> rw [h3] <;>
          rcases hp with h2 | h2 <;> rw [h2] <;>
          rcases hc r c with h4 | h4 | h4 <;> rw [h4] <;> decide

theorem C8_observation_is_scaled_board_witness :
    getCell (step e0 3).2.obs 5 3 =
        getCell (step e0 3).1.board 5 3 * (step e0 3).1.current_player ∧
      (getCell (step e0 3).2.obs 5 3 = -1 ∨
        getCell (step e0 3).2.obs 5 3 = 0 ∨
        getCell (step e0 3).2.obs 5 3 = 1) := by
  obtain ⟨h1, h2, h3, h4⟩ := C8_observation_is_scaled_board
  refine ⟨h2 e0 3 5 3, h4 e0 3 ?_ (Or.inl rfl) 5 3⟩
  intro r c
  right; left
  exact getCell_mkBoard 6 7 r c

/-- C9: every state reachable from `reset` through `step` calls has all
board cells in {−1, 0, +1}, columns filled contiguously from the bottom
(no empty cell below an occupied one), and a current player of ±1. -/
theorem C9_reachable_state_invariants (e : Connect4Env) (h : Reachable e) :
    cellsOK e ∧ gravityOK e ∧ playerOK e := by
  induction h with
  | reset e1 =>
    refine ⟨?_, ?_, Or.inl rfl⟩
    · intro r c
      right; left
      exact getCell_mkBoard e1.rows e1.cols r c
    · intro c r r' hle hlt hne
      exact absurd (getCell_mkBoard e1.rows e1.cols r c) hne
  | step e1 col hR ih =>
    obtain ⟨hc, hg, hpl⟩ := ih
    rcases step_state_cases e1 col with heq | ⟨r0, hfp, hv, hrows, hboard, hplayer⟩
    · rw [heq]
      exact ⟨hc, hg, hpl⟩
    · obtain ⟨hrlt, hempty, hbelow⟩ :=
        findPlaceRow_some_spec e1.board col.toNat e1.rows r0 hfp
      have hpne : e1.current_player ≠ 0 := by rcases hpl with h | h <;> omega
      refine ⟨?_, ?_, ?_⟩
      · intro r c
        rw [hboard]
        rcases getCell_setCell_cases e1.board r0 col.toNat e1.current_player
          r c with h1 | h1 <;> rw [h1]
        · rcases hpl with h2 | h2 <;> rw [h2]
          · right; right; rfl
          · left; rfl
        · exact hc r c
      · intro c rr rr' hle hlt hne
        rw [hrows] at hlt
        rw [hboard] at hne ⊢
        rw [getCell_setCell] at hne ⊢
        split
        · exact hpne
        · rename_i hgoal
          split at hne
          · rename_i hcond
            obtain ⟨hx, hy, hinb⟩ := hcond
            have hner : rr' ≠ r0 := fun hh => hgoal ⟨hh, hy, hinb⟩
            rw [hy]
            exact hbelow rr' (by omega) hlt
          · exact hg c rr rr' hle hlt hne
      · show (step e1 col).1.current_player = 1 ∨
          (step e1 col).1.current_player = -1
        rcases hplayer with h1 | h1 <;> rw [h1]
        · exact hpl
        · rcases hpl with h2 | h2 <;> rw [h2]
          · right; decide
          · left; decide

theorem C9_reachable_state_invariants_witness :
    playerOK e0 ∧ (getCell e0.board 0 0 = -1 ∨ getCell e0.board 0 0 = 0 ∨
      getCell e0.board 0 0 = 1) := by
  have h := C9_reachable_state_invariants e0 (Reachable.reset (initEnv 6 7 4))
  exact ⟨h.2.2, h.1 0 0⟩

/-- C10: a legal step changes exactly one board cell: the placed cell goes
from 0 to the mover's sign and every other cell keeps its value. -/
theorem C10_exactly_one_cell_changes (e : Connect4Env) (col : Int)
    (hr : 0 < e.rows) (hWF : WF e) (hpl : playerOK e)
    (hv : is_valid_action e col = true) :
    ∃ r : Nat, (place_piece e col.toNat e.current_player).1 = some r ∧
      getCell e.board r col.toNat = 0 ∧
      getCell (step e col).1.board r col.toNat = e.current_player ∧
      getCell (step e col).1.board r col.toNat ≠ getCell e.board r col.toNat ∧
      ∀ r' c', ¬(r' = r ∧ c' = col.toNat) →
        getCell (step e col).1.board r' c' = getCell e.board r' c' := by
  obtain ⟨h1, h2, htop⟩ := (is_valid_action_iff e col).mp hv
  obtain ⟨r, hp⟩ := findPlaceRow_isSome e.board col.toNat e.rows htop hr
  obtain ⟨hrlt, hempty, hbelow⟩ :=
    findPlaceRow_some_spec e.board col.toNat e.rows r hp
  have hb := step_board_of_some e col r hv hp
  have hset : getCell (step e col).1.board r col.toNat = e.current_player := by
    rw [hb]
    refine getCell_setCell_self e.board r col.toNat e.current_player ?_ ?_
    · have := hWF.1
      omega
    · rw [WF_row_length e hWF r hrlt]
      omega
  refine ⟨r, ?_, hempty, hset, ?_, ?_⟩
  · rw [place_piece_eq_some e col.toNat r hp]
  · rw [hset, hempty]
    rcases hpl with h | h <;> omega
  · intro r' c' hne
    rw [hb]
    exact getCell_setCell_ne e.board r col.toNat e.current_player r' c' hne

theorem C10_exactly_one_cell_changes_witness :
    getCell (step e0 2).1.board 5 ((2 : Int)).toNat = e0.current_player ∧
      getCell (step e0 2).1.board 0 0 = getCell e0.board 0 0 := by
  obtain ⟨r, hp, hempty, hset, hne, hframe⟩ :=
    C10_exactly_one_cell_changes e0 2 (by decide) ⟨by decide, by decide⟩
      (Or.inl rfl) (by decide)
  have h5 : some 5 = some r :=
    (by decide : (place_piece e0 ((2 : Int)).toNat e0.current_player).1 =
      some 5).symm.trans hp
  injection h5 with h5
  subst h5
  exact ⟨hset, hframe 0 0 (by decide)⟩

end Connect4
